import Mathlib

/-!
Verification of the jug HTTP framework wrapper (Go).

Shallow embedding of the repository's pure logic:
* `path_registry.go`: the path/method registry (a Go map of maps, modelled as
  an association list keyed by path whose values are method sets).
* `gin.go` (`expandMethods`): synthesis of 405 Method Not Allowed handlers.
* `validator.go`: the fluent validation-message accumulator.
* `errors.go`: the `ResponseStatusError` type and its constructors.
* `context.go` / the gin context wrapper: response helpers, error handling
  and the JSON-binding entry points, modelled over an explicit response state
  with the binding outcome and the wrapped object's validation behaviour as
  parameters (JSON decoding itself is owned by the wrapped engine).

Go machine integers are modelled as `Int` (no overflow is reachable in this
code: all integers are lengths or HTTP status constants), Go `len` on a string
is its UTF-8 byte size, and Go `nil`-able values are `Option`.
-/

namespace Jug

/-! ## HTTP status constants (`net/http`) -/

def httpStatusOK : Int := 200
def httpStatusCreated : Int := 201
def httpStatusNoContent : Int := 204
def httpStatusBadRequest : Int := 400
def httpStatusUnauthorized : Int := 401
def httpStatusForbidden : Int := 403
def httpStatusNotFound : Int := 404
def httpStatusMethodNotAllowed : Int := 405
def httpStatusConflict : Int := 409
def httpStatusInternalServerError : Int := 500

/-! ## Response-side model of the gin context

The wrapper only ever writes a response through `c.Status` (status only) or
`c.JSON` (status plus a JSON body).  The body is either the error object
`gin.H{"error": msg}` produced by `respondE` / `HandleError`, or the JSON
marshalling of a caller-supplied object, kept opaque here.  -/

/-- Body written by the context wrapper: either the gin.H error object with
the given message, or the JSON marshalling of an opaque caller object. -/
inductive RespBody where
  | errorObj (msg : String)
  | jsonObj (obj : String)
  deriving DecidableEq, Repr

/-- Response state of a request context: the status code set so far (if any)
and the body written so far (if any). -/
structure Ctx where
  status : Option Int
  body : Option RespBody
  deriving DecidableEq, Repr

/-- Method `Status` of the context wrapper: sets the response status code. -/
def Ctx.Status (c : Ctx) (code : Int) : Ctx :=
  ⟨some code, c.body⟩

/-- Method `JSON` of the underlying gin context: sets the status code and
writes the given body as JSON. -/
def Ctx.JSON (_c : Ctx) (code : Int) (b : RespBody) : Ctx :=
  ⟨some code, some b⟩

/-- Handler functions act on the request context (`HandlerFunc`). -/
abbrev HandlerFunc : Type := Ctx → Ctx

/-- Function `MethodNotAllowed` from `main.go`: a handler that sets response
status 405 Method Not Allowed. -/
def MethodNotAllowed : HandlerFunc := fun c => c.Status httpStatusMethodNotAllowed

/-! ## The path registry (`path_registry.go`)

`PathRegistry.paths` is a Go `map[string]map[string]bool`.  A Go map is a
finite key-value table; it is modelled as an association list with distinct
keys (insertion order standing in for Go's unspecified iteration order), and
the inner `map[string]bool` set-of-methods as a duplicate-free list. -/

/-- Map lookup on an association list (Go `e, ok := m[k]`). -/
def mapGet (l : List (String × List String)) (k : String) : Option (List String) :=
  match l.find? (fun e => e.1 = k) with
  | none => none
  | some e => some e.2

/-- Map update of an existing key on an association list (Go `m[k] = v`). -/
def mapSet (l : List (String × List String)) (k : String) (v : List String) :
    List (String × List String) :=
  l.map (fun e => if e.1 = k then (e.1, v) else e)

/-- Loop body of `PathRegistry.Add`: inserts each method into the method set
(`e[m] = true` on a Go `map[string]bool`, hence no duplicates). -/
def addMethodSet (e : List String) (methods : List String) : List String :=
  methods.foldl (fun acc m => if acc.contains m then acc else acc ++ [m]) e

structure PathRegistry where
  paths : List (String × List String)
  deriving DecidableEq, Repr

/-- Function `NewPathRegistry`: an empty registry. -/
def NewPathRegistry : PathRegistry := ⟨[]⟩

/-- Method `PathRegistry.Add`: creates the entry for `path` when absent, then
records each of `methods` in its method set. -/
def PathRegistry.Add (p : PathRegistry) (path : String) (methods : List String) :
    PathRegistry :=
  match mapGet p.paths path with
  | none => ⟨p.paths ++ [(path, addMethodSet [] methods)]⟩
  | some e => ⟨mapSet p.paths path (addMethodSet e methods)⟩

/-- Method `PathRegistry.Get`: true when `path` has an entry and `method` is
in its method set. -/
def PathRegistry.Get (p : PathRegistry) (path : String) (method : String) : Bool :=
  match mapGet p.paths path with
  | none => false
  | some e => e.contains method

/-- Method `PathRegistry.Paths`: the list of registered paths (the keys of the
Go map, in the model in insertion order). -/
def PathRegistry.Paths (p : PathRegistry) : List String :=
  p.paths.map (fun e => e.1)

/-- Replay of a finite sequence of `Add` calls against a fresh registry: each
operation is a pair of the path argument and the variadic method list. -/
def registryOfOps (ops : List (String × List String)) : PathRegistry :=
  ops.foldl (fun r op => r.Add op.1 op.2) NewPathRegistry

/-! ## Expansion of 405 handlers (`expandMethods` in `gin.go`)

`expandMethods` walks the registry's paths and, for each of the seven HTTP
verbs not registered for that path, registers `MethodNotAllowed` on the
router for that verb and path.  A route registration is modelled as the
triple (verb, path, handler) handed to the router. -/

/-- The seven HTTP verbs `expandMethods` considers, in source order. -/
def httpMethods : List String :=
  ["GET", "POST", "PUT", "DELETE", "PATCH", "OPTIONS", "HEAD"]

/-- A route registration performed on the router: verb, path, handler. -/
abbrev Route : Type := String × String × HandlerFunc

/-- One conditional registration inside the `expandMethods` loop body
(`if !registry.Get(p, m) { router.M(p, MethodNotAllowed) }`). -/
def expandIf (registry : PathRegistry) (p : String) (m : String) : List Route :=
  if !registry.Get p m then [(m, p, MethodNotAllowed)] else []

/-- Loop body of `expandMethods` for one path: the seven conditional
registrations, in source order. -/
def expandPath (registry : PathRegistry) (p : String) : List Route :=
  expandIf registry p "GET" ++ expandIf registry p "POST" ++
    expandIf registry p "PUT" ++ expandIf registry p "DELETE" ++
    expandIf registry p "PATCH" ++ expandIf registry p "OPTIONS" ++
    expandIf registry p "HEAD"

/-- Function `expandMethods` from `gin.go`: the registrations it performs on
the router, iterating over `registry.Paths()`. -/
def expandMethods (registry : PathRegistry) : List Route :=
  (registry.Paths).flatMap (expandPath registry)

/-! ## Errors (`errors.go`)

A Go `error` relevant to this code is either a `*ResponseStatusError` (the
type `HandleError` switches on) or any other error, kept as its message. -/

inductive GoError where
  | responseStatus (statusCode : Int) (message : String)
  | other (message : String)
  deriving DecidableEq, Repr

/-- Method `Error()` of `ResponseStatusError` returns the message; for any
other error its message is likewise its `Error()` string. -/
def GoError.error : GoError → String
  | .responseStatus _ m => m
  | .other m => m

/-- Function `NewResponseStatusError`. -/
def NewResponseStatusError (statusCode : Int) (message : String) : GoError :=
  .responseStatus statusCode message

/-- Function `NewBadRequestError`. -/
def NewBadRequestError (message : String) : GoError :=
  NewResponseStatusError httpStatusBadRequest message

/-- Function `NewUnauthorizedError`. -/
def NewUnauthorizedError (message : String) : GoError :=
  NewResponseStatusError httpStatusUnauthorized message

/-- Function `NewForbiddenError`. -/
def NewForbiddenError (message : String) : GoError :=
  NewResponseStatusError httpStatusForbidden message

/-- Function `NewNotFoundError`. -/
def NewNotFoundError (message : String) : GoError :=
  NewResponseStatusError httpStatusNotFound message

/-- Function `NewConflictError`. -/
def NewConflictError (message : String) : GoError :=
  NewResponseStatusError httpStatusConflict message

/-! ## Response helpers of the context wrapper (`gin.go`)

A caller-supplied object is `Option String`: `none` is Go `nil`, `some o` an
opaque non-nil object whose JSON marshalling is `o`. -/

/-- Method `respond`: status only for a nil object, JSON otherwise. -/
def Ctx.respond (c : Ctx) (status : Int) (obj : Option String) : Ctx :=
  match obj with
  | none => c.Status status
  | some o => c.JSON status (.jsonObj o)

/-- Method `respondE`: writes `gin.H\x7b"error": err.Error()\x7d` as JSON. -/
def Ctx.respondE (c : Ctx) (status : Int) (err : GoError) : Ctx :=
  c.JSON status (.errorObj err.error)

/-- Method `RespondOk`. -/
def Ctx.RespondOk (c : Ctx) (obj : Option String) : Ctx :=
  c.respond httpStatusOK obj

/-- Method `RespondNoContent`: sets status 204 only. -/
def Ctx.RespondNoContent (c : Ctx) : Ctx :=
  c.Status httpStatusNoContent

/-- Method `RespondCreated`. -/
def Ctx.RespondCreated (c : Ctx) (obj : Option String) : Ctx :=
  c.respond httpStatusCreated obj

/-- Method `RespondForbidden`. -/
def Ctx.RespondForbidden (c : Ctx) (obj : Option String) : Ctx :=
  c.respond httpStatusForbidden obj

/-- Method `RespondForbiddenE`. -/
def Ctx.RespondForbiddenE (c : Ctx) (err : GoError) : Ctx :=
  c.respondE httpStatusForbidden err

/-- Method `RespondUnauthorized`. -/
def Ctx.RespondUnauthorized (c : Ctx) (obj : Option String) : Ctx :=
  c.respond httpStatusUnauthorized obj

/-- Method `RespondUnauthorizedE`. -/
def Ctx.RespondUnauthorizedE (c : Ctx) (err : GoError) : Ctx :=
  c.respondE httpStatusUnauthorized err

/-- Method `RespondBadRequest`. -/
def Ctx.RespondBadRequest (c : Ctx) (obj : Option String) : Ctx :=
  c.respond httpStatusBadRequest obj

/-- Method `RespondBadRequestE`. -/
def Ctx.RespondBadRequestE (c : Ctx) (err : GoError) : Ctx :=
  c.respondE httpStatusBadRequest err

/-- Method `RespondNotFound`. -/
def Ctx.RespondNotFound (c : Ctx) (obj : Option String) : Ctx :=
  c.respond httpStatusNotFound obj

/-- Method `RespondNotFoundE`. -/
def Ctx.RespondNotFoundE (c : Ctx) (err : GoError) : Ctx :=
  c.respondE httpStatusNotFound err

/-- Method `RespondConflict`. -/
def Ctx.RespondConflict (c : Ctx) (obj : Option String) : Ctx :=
  c.respond httpStatusConflict obj

/-- Method `RespondConflictE`. -/
def Ctx.RespondConflictE (c : Ctx) (err : GoError) : Ctx :=
  c.respondE httpStatusConflict err

/-- Method `RespondInternalServerError`. -/
def Ctx.RespondInternalServerError (c : Ctx) (obj : Option String) : Ctx :=
  c.respond httpStatusInternalServerError obj

/-- Method `RespondInternalServerErrorE`. -/
def Ctx.RespondInternalServerErrorE (c : Ctx) (err : GoError) : Ctx :=
  c.respondE httpStatusInternalServerError err

/-- Method `RespondMissingRequestBody`: a 400 with the fixed message
(`fmt.Errorf` on a constant format string without verbs is that string). -/
def Ctx.RespondMissingRequestBody (c : Ctx) : Ctx :=
  c.RespondBadRequestE (.other "request body is missing")

/-- Method `HandleError`: a `*ResponseStatusError` is written with its own
status code and message, any other error as a 500. -/
def Ctx.HandleError (c : Ctx) (err : GoError) : Ctx :=
  match err with
  | .responseStatus code m => c.JSON code (.errorObj m)
  | .other _ => c.RespondInternalServerErrorE err

/-! ## JSON binding (`gin.go`)

`ShouldBindJSON` is owned by gin; its outcome on the current request body is
a parameter: success, `io.EOF` (empty body), or some other bind error.
Whether the target object implements `Validatable`, and what its `Validate()`
returns, is likewise a parameter of the model. -/

/-- Outcome of `c.ShouldBindJSON(obj)` on the current request. -/
inductive BindOutcome where
  | success
  | eof
  | failure (err : GoError)
  deriving DecidableEq, Repr

/-- Validation behaviour of the bind target: a plain object (no `Validatable`
implementation) or a `Validatable` whose `Validate()` returns `none` (nil) or
`some e` (an error). -/
inductive TargetKind where
  | plain
  | validatable (result : Option GoError)
  deriving DecidableEq, Repr

/-- The closure `MustBindJSON`/`MayBindJSON` pass as validator: the target's
own `Validate()` when it implements `Validatable`, else nil. -/
def defaultValidator (obj : TargetKind) : Option GoError :=
  match obj with
  | .plain => none
  | .validatable r => r

/-- Method `MayBindJSONV`: binds, treating `io.EOF` as success without
invoking the validator; writes a 400 on any other failure. -/
def Ctx.MayBindJSONV (c : Ctx) (bind : BindOutcome) (validator : Option GoError) :
    Bool × Ctx :=
  match bind with
  | .eof => (true, c)
  | .failure e => (false, c.RespondBadRequestE e)
  | .success =>
    match validator with
    | some e => (false, c.RespondBadRequestE e)
    | none => (true, c)

/-- Method `MayBindJSON`: `MayBindJSONV` with the default validator. -/
def Ctx.MayBindJSON (c : Ctx) (bind : BindOutcome) (obj : TargetKind) : Bool × Ctx :=
  c.MayBindJSONV bind (defaultValidator obj)

/-- Method `MustBindJSONV`: an `io.EOF` bind failure is a 400 "request body
is missing"; after a successful bind the validator runs and then, when the
target is `Validatable`, its `Validate()` is checked once more. -/
def Ctx.MustBindJSONV (c : Ctx) (bind : BindOutcome) (obj : TargetKind)
    (validator : Option GoError) : Bool × Ctx :=
  match bind with
  | .eof => (false, c.RespondMissingRequestBody)
  | .failure e => (false, c.RespondBadRequestE e)
  | .success =>
    match validator with
    | some e => (false, c.RespondBadRequestE e)
    | none =>
      match obj with
      | .validatable (some e) => (false, c.RespondBadRequestE e)
      | _ => (true, c)

/-- Method `MustBindJSON`: `MustBindJSONV` with the default validator. -/
def Ctx.MustBindJSON (c : Ctx) (bind : BindOutcome) (obj : TargetKind) : Bool × Ctx :=
  c.MustBindJSONV bind obj (defaultValidator obj)

/-! ## The validator (`validator.go`)

`Validator.errors` is a `strings.Builder`, i.e. an accumulated string.  Go
`len` on a string is its UTF-8 byte count, modelled by `goLen`; Go `int`
arguments (`min`, `max`) are `Int`.  A compiled `*regexp.Regexp` is owned by
the Go standard library and enters the model as its `MatchString` function. -/

/-- Go `len` on a string: the UTF-8 byte length. -/
def goLen (s : String) : Nat := s.utf8ByteSize

structure Validator where
  errors : String
  deriving DecidableEq, Repr

/-- Function `NewValidator`: an empty message accumulator. -/
def NewValidator : Validator := ⟨""⟩

/-- Accumulator step of method `append` on the builder contents: a ", "
separator is written first exactly when the builder is non-empty. -/
def appendStr (acc : String) (msg : String) : String :=
  if goLen acc > 0 then acc ++ ", " ++ msg else acc ++ msg

/-- Method `append` (unexported) of `Validator`. -/
def Validator.append (v : Validator) (msg : String) : Validator :=
  ⟨appendStr v.errors msg⟩

/-- Method `Require`: appends the message when the condition is false. -/
def Validator.Require (v : Validator) (condition : Bool) (message : String) : Validator :=
  if !condition then v.append message else v

/-- Method `RequireEnum`: an empty string passes; otherwise the loop over
`values` returns at the first match, and appends after a full miss. -/
def Validator.RequireEnum (v : Validator) (s : String) (message : String)
    (values : List String) : Validator :=
  if goLen s = 0 then v
  else if values.contains s then v
  else v.append message

/-- Method `RequireSliceMinLength`. -/
def Validator.RequireSliceMinLength (v : Validator) (s : List String) (min : Int)
    (message : String) : Validator :=
  if (s.length : Int) < min then v.append message else v

/-- Method `RequireStringSliceMinLength` (deprecated alias). -/
def Validator.RequireStringSliceMinLength (v : Validator) (s : List String) (min : Int)
    (message : String) : Validator :=
  v.RequireSliceMinLength s min message

/-- Method `RequireSliceNotEmpty`. -/
def Validator.RequireSliceNotEmpty (v : Validator) (s : List String)
    (message : String) : Validator :=
  if s.length = 0 then v.append message else v

/-- Method `RequireStringSliceNotEmpty` (deprecated alias). -/
def Validator.RequireStringSliceNotEmpty (v : Validator) (s : List String)
    (message : String) : Validator :=
  v.RequireSliceNotEmpty s message

/-- Method `RequireSliceEnum`: an empty slice passes; otherwise the loop
appends once and returns at the first element outside `values` (the Go code
first materialises `values` as a set, which only membership observes). -/
def Validator.RequireSliceEnum (v : Validator) (s : List String) (message : String)
    (values : List String) : Validator :=
  if s.length = 0 then v
  else if s.all (fun i => values.contains i) then v
  else v.append message

/-- Method `RequireStringSliceEnum` (deprecated alias). -/
def Validator.RequireStringSliceEnum (v : Validator) (s : List String) (message : String)
    (values : List String) : Validator :=
  v.RequireSliceEnum s message values

/-- Method `RequireMatchesRegex`: appends when the string is non-empty and
does not match. -/
def Validator.RequireMatchesRegex (v : Validator) (s : String) (regex : String → Bool)
    (message : String) : Validator :=
  if goLen s > 0 && !(regex s) then v.append message else v

/-- Method `RequireMinLength`. -/
def Validator.RequireMinLength (v : Validator) (s : String) (min : Int)
    (message : String) : Validator :=
  v.Require (decide ((goLen s : Int) ≥ min)) message

/-- Method `RequireStringMinLength` (deprecated alias). -/
def Validator.RequireStringMinLength (v : Validator) (s : String) (min : Int)
    (message : String) : Validator :=
  v.RequireMinLength s min message

/-- Method `RequireMaxLength`: the bound is exclusive (`len(s) < max`). -/
def Validator.RequireMaxLength (v : Validator) (s : String) (max : Int)
    (message : String) : Validator :=
  v.Require (decide ((goLen s : Int) < max)) message

/-- Method `RequireStringMaxLength` (deprecated alias). -/
def Validator.RequireStringMaxLength (v : Validator) (s : String) (max : Int)
    (message : String) : Validator :=
  v.RequireMaxLength s max message

/-- Method `RequireNotEmpty`. -/
def Validator.RequireNotEmpty (v : Validator) (s : String) (message : String) : Validator :=
  v.Require (decide (goLen s > 0)) message

/-- Method `RequireStringNotEmpty` (deprecated alias). -/
def Validator.RequireStringNotEmpty (v : Validator) (s : String) (message : String) : Validator :=
  v.RequireNotEmpty s message

/-- Method `RequireStringLengthBetween`: `min` inclusive, `max` exclusive. -/
def Validator.RequireStringLengthBetween (v : Validator) (s : String) (min : Int)
    (max : Int) (message : String) : Validator :=
  v.Require (decide ((goLen s : Int) ≥ min) && decide ((goLen s : Int) < max)) message

/-- Models the Go fmt package's rendering of a format string applied to no
operands, as `fmt.Errorf(v.errors.String())` does in `Validate`: a string
without a percent sign is returned verbatim; "%%" renders as "%"; a simple
verb with a missing operand renders as "%!v(MISSING)"; a trailing bare "%" as
"%!(NOVERB)".  Flags, widths and precisions of verbs are not modelled; every
format string below that reaches a verb case is percent-free. -/
def fmtExpand : List Char → List Char
  | [] => []
  | [c] => if c = '%' then "%!(NOVERB)".data else [c]
  | c :: d :: rest =>
    if c = '%' then
      if d = '%' then '%' :: fmtExpand rest
      else "%!".data ++ d :: ("(MISSING)".data ++ fmtExpand rest)
    else c :: fmtExpand (d :: rest)

/-- Go `fmt.Errorf(format)` with no further arguments: the message of the
returned error. -/
def goErrorf (format : String) : String := ⟨fmtExpand format.data⟩

/-- Method `Validate`: nil (`none`) when the accumulator is empty, else the
error built by `fmt.Errorf` from the accumulated string, modelled as its
message. -/
def Validator.Validate (v : Validator) : Option String :=
  if goLen v.errors > 0 then some (goErrorf v.errors) else none

/-! ## Chains of Require* calls

A chain of fluent calls on one validator is a list of `Call`s, each applied
by the source function it names. -/

inductive Call where
  | require (condition : Bool) (message : String)
  | requireEnum (s : String) (message : String) (values : List String)
  | requireStringSliceMinLength (s : List String) (min : Int) (message : String)
  | requireSliceMinLength (s : List String) (min : Int) (message : String)
  | requireStringSliceNotEmpty (s : List String) (message : String)
  | requireSliceNotEmpty (s : List String) (message : String)
  | requireStringSliceEnum (s : List String) (message : String) (values : List String)
  | requireSliceEnum (s : List String) (message : String) (values : List String)
  | requireMatchesRegex (s : String) (regex : String → Bool) (message : String)
  | requireStringMinLength (s : String) (min : Int) (message : String)
  | requireMinLength (s : String) (min : Int) (message : String)
  | requireStringMaxLength (s : String) (max : Int) (message : String)
  | requireMaxLength (s : String) (max : Int) (message : String)
  | requireStringNotEmpty (s : String) (message : String)
  | requireNotEmpty (s : String) (message : String)
  | requireStringLengthBetween (s : String) (min : Int) (max : Int) (message : String)

/-- Dispatch of one fluent call to the source function it names. -/
def applyCall (v : Validator) : Call → Validator
  | .require condition message => v.Require condition message
  | .requireEnum s message values => v.RequireEnum s message values
  | .requireStringSliceMinLength s min message => v.RequireStringSliceMinLength s min message
  | .requireSliceMinLength s min message => v.RequireSliceMinLength s min message
  | .requireStringSliceNotEmpty s message => v.RequireStringSliceNotEmpty s message
  | .requireSliceNotEmpty s message => v.RequireSliceNotEmpty s message
  | .requireStringSliceEnum s message values => v.RequireStringSliceEnum s message values
  | .requireSliceEnum s message values => v.RequireSliceEnum s message values
  | .requireMatchesRegex s regex message => v.RequireMatchesRegex s regex message
  | .requireStringMinLength s min message => v.RequireStringMinLength s min message
  | .requireMinLength s min message => v.RequireMinLength s min message
  | .requireStringMaxLength s max message => v.RequireStringMaxLength s max message
  | .requireMaxLength s max message => v.RequireMaxLength s max message
  | .requireStringNotEmpty s message => v.RequireStringNotEmpty s message
  | .requireNotEmpty s message => v.RequireNotEmpty s message
  | .requireStringLengthBetween s min max message =>
      v.RequireStringLengthBetween s min max message

/-- The check of a call fails exactly when the call appends its message. -/
def Call.fails : Call → Bool
  | .require condition _ => !condition
  | .requireEnum s _ values => !(decide (goLen s = 0)) && !(values.contains s)
  | .requireStringSliceMinLength s min _ => decide ((s.length : Int) < min)
  | .requireSliceMinLength s min _ => decide ((s.length : Int) < min)
  | .requireStringSliceNotEmpty s _ => decide (s.length = 0)
  | .requireSliceNotEmpty s _ => decide (s.length = 0)
  | .requireStringSliceEnum s _ values =>
      !(decide (s.length = 0)) && !(s.all fun i => values.contains i)
  | .requireSliceEnum s _ values =>
      !(decide (s.length = 0)) && !(s.all fun i => values.contains i)
  | .requireMatchesRegex s regex _ => decide (goLen s > 0) && !(regex s)
  | .requireStringMinLength s min _ => !(decide ((goLen s : Int) ≥ min))
  | .requireMinLength s min _ => !(decide ((goLen s : Int) ≥ min))
  | .requireStringMaxLength s max _ => !(decide ((goLen s : Int) < max))
  | .requireMaxLength s max _ => !(decide ((goLen s : Int) < max))
  | .requireStringNotEmpty s _ => !(decide (goLen s > 0))
  | .requireNotEmpty s _ => !(decide (goLen s > 0))
  | .requireStringLengthBetween s min max _ =>
      !(decide ((goLen s : Int) ≥ min) && decide ((goLen s : Int) < max))

/-- The failure message of a call. -/
def Call.msg : Call → String
  | .require _ message => message
  | .requireEnum _ message _ => message
  | .requireStringSliceMinLength _ _ message => message
  | .requireSliceMinLength _ _ message => message
  | .requireStringSliceNotEmpty _ message => message
  | .requireSliceNotEmpty _ message => message
  | .requireStringSliceEnum _ message _ => message
  | .requireSliceEnum _ message _ => message
  | .requireMatchesRegex _ _ message => message
  | .requireStringMinLength _ _ message => message
  | .requireMinLength _ _ message => message
  | .requireStringMaxLength _ _ message => message
  | .requireMaxLength _ _ message => message
  | .requireStringNotEmpty _ message => message
  | .requireNotEmpty _ message => message
  | .requireStringLengthBetween _ _ _ message => message

/-- Replay of a chain of fluent calls. -/
def runCalls (v : Validator) (calls : List Call) : Validator :=
  calls.foldl applyCall v

/-- Joining a list of messages with ", ", as the specification words it. -/
def joinComma : List String → String
  | [] => ""
  | [m] => m
  | m :: m2 :: rest => m ++ ", " ++ joinComma (m2 :: rest)

/-! ## Helper lemmas -/

/-- A string has UTF-8 byte length zero exactly when it is empty. -/
theorem goLen_eq_zero_iff (s : String) : goLen s = 0 ↔ s = "" := by
  cases s with
  | mk l =>
    simp [goLen, String.utf8ByteSize_mk, String.utf8Len_eq_zero, String.ext_iff]

/-- A string has positive UTF-8 byte length exactly when it is non-empty. -/
theorem goLen_pos_iff (s : String) : 0 < goLen s ↔ s ≠ "" := by
  rw [Nat.pos_iff_ne_zero]
  exact not_congr (goLen_eq_zero_iff s)

/-- The empty string has UTF-8 byte length zero. -/
theorem goLen_empty : goLen "" = 0 := rfl

/-- Map lookup on the empty association list. -/
theorem mapGet_nil (k : String) : mapGet [] k = none := rfl

/-- Map lookup steps through a cons cell by comparing keys. -/
theorem mapGet_cons (e : String × List String) (l : List (String × List String))
    (k : String) :
    mapGet (e :: l) k = if e.1 = k then some e.2 else mapGet l k := by
  by_cases h : e.1 = k <;> simp [mapGet, List.find?, h]

/-- Map update steps through a cons cell. -/
theorem mapSet_cons (e : String × List String) (l : List (String × List String))
    (k : String) (v : List String) :
    mapSet (e :: l) k v = (if e.1 = k then (e.1, v) else e) :: mapSet l k v := rfl

/-- Map lookup misses exactly when the key is absent. -/
theorem mapGet_eq_none (l : List (String × List String)) (k : String) :
    mapGet l k = none ↔ k ∉ l.map (fun e => e.1) := by
  induction l with
  | nil => simp [mapGet_nil]
  | cons e l ih =>
    rw [mapGet_cons]
    by_cases h : e.1 = k
    · simp [h]
    · rw [if_neg h, ih]
      simp only [List.map_cons, List.mem_cons, not_or]
      constructor
      · intro hk
        exact ⟨fun hh => h hh.symm, hk⟩
      · intro hk
        exact hk.2

/-- Appending a fresh single entry: hits on the old part take precedence. -/
theorem mapGet_append_of_none (l : List (String × List String)) (k : String)
    (v : List String) (q : String) (h : mapGet l q = none) :
    mapGet (l ++ [(k, v)]) q = if k = q then some v else none := by
  induction l with
  | nil => simp [mapGet_cons, mapGet_nil]
  | cons e l ih =>
    rw [List.cons_append, mapGet_cons] at *
    by_cases he : e.1 = q
    · simp [he] at h
    · simp [he] at h ⊢
      exact ih h

/-- Appending an entry does not shadow an existing hit. -/
theorem mapGet_append_of_some (l : List (String × List String)) (k : String)
    (v : List String) (q : String) (e : List String) (h : mapGet l q = some e) :
    mapGet (l ++ [(k, v)]) q = some e := by
  induction l with
  | nil => simp [mapGet_nil] at h
  | cons f l ih =>
    rw [List.cons_append, mapGet_cons] at *
    by_cases hf : f.1 = q
    · simpa [hf] using h
    · simp [hf] at h ⊢
      exact ih h

/-- Updating a present key makes lookup return the new value. -/
theorem mapGet_mapSet_self (l : List (String × List String)) (k : String)
    (v : List String) (h : mapGet l k ≠ none) :
    mapGet (mapSet l k v) k = some v := by
  induction l with
  | nil => simp [mapGet_nil] at h
  | cons e l ih =>
    rw [mapGet_cons] at h
    by_cases he : e.1 = k
    · simp [mapSet, he, mapGet_cons]
    · simp [he] at h
      simpa [mapSet, he, mapGet_cons] using ih h

/-- Updating one key leaves lookups of other keys unchanged. -/
theorem mapGet_mapSet_ne (l : List (String × List String)) (k : String)
    (v : List String) (q : String) (h : q ≠ k) :
    mapGet (mapSet l k v) q = mapGet l q := by
  induction l with
  | nil => rfl
  | cons e l ih =>
    rw [mapSet_cons]
    by_cases he : e.1 = k
    · rw [if_pos he]
      have hne : e.1 ≠ q := fun hh => h (by rw [← hh, he])
      simp only [mapGet_cons]
      simp [hne, ih]
    · rw [if_neg he]
      simp only [mapGet_cons]
      by_cases heq : e.1 = q <;> simp [heq, ih]

/-- Updating a value never changes the key list. -/
theorem keys_mapSet (l : List (String × List String)) (k : String) (v : List String) :
    (mapSet l k v).map (fun e => e.1) = l.map (fun e => e.1) := by
  induction l with
  | nil => rfl
  | cons e l ih =>
    rw [mapSet_cons]
    by_cases he : e.1 = k <;> simp [he, ih]

/-- Membership in the method set built by the `Add` loop. -/
theorem mem_addMethodSet (e ms : List String) (m : String) :
    m ∈ addMethodSet e ms ↔ m ∈ e ∨ m ∈ ms := by
  induction ms generalizing e with
  | nil => simp [addMethodSet]
  | cons m0 ms ih =>
    by_cases h : e.contains m0 = true
    · have hm0 : m0 ∈ e := by simpa using h
      have hstep : addMethodSet e (m0 :: ms) = addMethodSet e ms := by
        simp [addMethodSet, List.foldl_cons, hm0]
      rw [hstep, ih]
      simp only [List.mem_cons]
      constructor
      · rintro (hh | hh)
        · exact Or.inl hh
        · exact Or.inr (Or.inr hh)
      · rintro (hh | hh | hh)
        · exact Or.inl hh
        · exact Or.inl (by rw [hh]; exact hm0)
        · exact Or.inr hh
    · have hm0 : m0 ∉ e := by simpa using h
      have hstep : addMethodSet e (m0 :: ms) = addMethodSet (e ++ [m0]) ms := by
        simp [addMethodSet, List.foldl_cons, hm0]
      rw [hstep, ih]
      simp only [List.mem_append, List.mem_singleton, List.mem_cons]
      tauto

/-- Effect of one `Add` call on a subsequent `Get`. -/
theorem get_add (r : PathRegistry) (p : String) (ms : List String) (q m : String) :
    (r.Add p ms).Get q m = (r.Get q m || (decide (q = p) && ms.contains m)) := by
  unfold PathRegistry.Add PathRegistry.Get
  cases hg : mapGet r.paths p with
  | none =>
    cases hq : mapGet r.paths q with
    | none =>
      rw [mapGet_append_of_none _ _ _ _ hq]
      by_cases hpq : p = q
      · subst hpq
        rw [if_pos rfl, Bool.eq_iff_iff]
        simp [mem_addMethodSet]
      · have hqp : ¬ q = p := fun hh => hpq hh.symm
        rw [if_neg hpq]
        simp [hqp]
    | some e =>
      rw [mapGet_append_of_some _ _ _ _ _ hq]
      have hqp : ¬ q = p := by
        intro hh
        rw [hh, hg] at hq
        cases hq
      simp [hqp]
  | some e =>
    by_cases hqp : q = p
    · subst hqp
      rw [mapGet_mapSet_self _ _ _ (by rw [hg]; simp), hg]
      rw [Bool.eq_iff_iff]
      simp [mem_addMethodSet]
    · rw [mapGet_mapSet_ne _ _ _ _ hqp]
      cases hq : mapGet r.paths q <;> simp [hqp]

/-- Effect of replaying a sequence of `Add` calls on `Get`, over any start
state. -/
theorem get_foldAdd (ops : List (String × List String)) (r : PathRegistry)
    (q m : String) :
    (ops.foldl (fun r op => r.Add op.1 op.2) r).Get q m = true ↔
      (r.Get q m = true ∨ ∃ op ∈ ops, op.1 = q ∧ m ∈ op.2) := by
  induction ops generalizing r with
  | nil => simp
  | cons op ops ih =>
    rw [List.foldl_cons, ih, get_add]
    simp only [Bool.or_eq_true, Bool.and_eq_true, decide_eq_true_eq, List.mem_cons]
    constructor
    · rintro ((h | h) | h)
      · exact Or.inl h
      · exact Or.inr ⟨op, Or.inl rfl, h.1.symm, by simpa using h.2⟩
      · obtain ⟨o, ho, h1, h2⟩ := h
        exact Or.inr ⟨o, Or.inr ho, h1, h2⟩
    · rintro (h | ⟨o, ho | ho, h1, h2⟩)
      · exact Or.inl (Or.inl h)
      · subst ho
        exact Or.inl (Or.inr ⟨h1.symm, by simpa using h2⟩)
      · exact Or.inr ⟨o, ho, h1, h2⟩

/-- Effect of one `Add` call on `Paths`: a known path changes nothing, a new
path is appended once. -/
theorem paths_add (r : PathRegistry) (p : String) (ms : List String) :
    (r.Add p ms).Paths = if p ∈ r.Paths then r.Paths else r.Paths ++ [p] := by
  unfold PathRegistry.Add PathRegistry.Paths
  cases hg : mapGet r.paths p with
  | none =>
    have hnp : p ∉ r.paths.map (fun e => e.1) := (mapGet_eq_none _ _).mp hg
    simp [hnp]
  | some e =>
    have hp : p ∈ r.paths.map (fun e => e.1) := by
      by_contra h
      rw [← mapGet_eq_none] at h
      rw [h] at hg
      cases hg
    simp [hp, keys_mapSet]

/-- Membership in `Paths` after replaying `Add` calls, over any start state. -/
theorem mem_paths_foldAdd (ops : List (String × List String)) (r : PathRegistry)
    (p : String) :
    p ∈ (ops.foldl (fun r op => r.Add op.1 op.2) r).Paths ↔
      p ∈ r.Paths ∨ p ∈ ops.map (fun op => op.1) := by
  induction ops generalizing r with
  | nil => simp
  | cons op ops ih =>
    rw [List.foldl_cons, ih, paths_add]
    by_cases h : op.1 ∈ r.Paths
    · rw [if_pos h]
      simp only [List.map_cons, List.mem_cons]
      constructor
      · rintro (hh | hh)
        · exact Or.inl hh
        · exact Or.inr (Or.inr hh)
      · rintro (hh | hh | hh)
        · exact Or.inl hh
        · exact Or.inl (by rw [hh]; exact h)
        · exact Or.inr hh
    · rw [if_neg h]
      simp only [List.mem_append, List.mem_singleton, List.map_cons, List.mem_cons,
        List.not_mem_nil, or_false]
      constructor
      · rintro ((hh | hh) | hh)
        · exact Or.inl hh
        · exact Or.inr (Or.inl hh)
        · exact Or.inr (Or.inr hh)
      · rintro (hh | hh | hh)
        · exact Or.inl (Or.inl hh)
        · exact Or.inl (Or.inr hh)
        · exact Or.inr hh

/-- Replaying `Add` calls preserves distinctness of the path list. -/
theorem nodup_paths_foldAdd (ops : List (String × List String)) (r : PathRegistry)
    (h : r.Paths.Nodup) :
    (ops.foldl (fun r op => r.Add op.1 op.2) r).Paths.Nodup := by
  induction ops generalizing r with
  | nil => exact h
  | cons op ops ih =>
    rw [List.foldl_cons]
    apply ih
    rw [paths_add]
    by_cases hp : op.1 ∈ r.Paths
    · rw [if_pos hp]
      exact h
    · rw [if_neg hp]
      refine List.Nodup.append h (List.nodup_singleton _) ?_
      intro a ha hb
      rw [List.mem_singleton] at hb
      subst hb
      exact hp ha

/-! ## Claim theorems -/

/-- C4: HandleError writes a JSON response with the error object body and the
status code carried by a ResponseStatusError (whose named constructors carry
400, 401, 403, 404 and 409 respectively), and a 500 response with the error's
message for every other error. -/
theorem handleError_maps_errors (c : Ctx) (code : Int) (m : String) :
    (c.HandleError (.responseStatus code m)).status = some code
    ∧ (c.HandleError (.responseStatus code m)).body = some (.errorObj m)
    ∧ (c.HandleError (.other m)).status = some 500
    ∧ (c.HandleError (.other m)).body = some (.errorObj m)
    ∧ NewBadRequestError m = .responseStatus 400 m
    ∧ NewUnauthorizedError m = .responseStatus 401 m
    ∧ NewForbiddenError m = .responseStatus 403 m
    ∧ NewNotFoundError m = .responseStatus 404 m
    ∧ NewConflictError m = .responseStatus 409 m :=
  ⟨rfl, rfl, rfl, rfl, rfl, rfl, rfl, rfl, rfl⟩

/-- C6: each response helper sets exactly its named status code; a helper
taking an object writes it as JSON when non-nil and writes no body itself
when nil; RespondNoContent writes no body. -/
theorem respond_helpers_spec (c : Ctx) (o : String) (err : GoError) :
    (c.RespondOk (some o)).status = some 200
    ∧ (c.RespondOk (some o)).body = some (.jsonObj o)
    ∧ (c.RespondOk none).status = some 200
    ∧ (c.RespondOk none).body = c.body
    ∧ (c.RespondCreated (some o)).status = some 201
    ∧ (c.RespondCreated (some o)).body = some (.jsonObj o)
    ∧ (c.RespondCreated none).status = some 201
    ∧ (c.RespondCreated none).body = c.body
    ∧ (c.RespondNoContent).status = some 204
    ∧ (c.RespondNoContent).body = c.body
    ∧ (c.RespondBadRequest (some o)).status = some 400
    ∧ (c.RespondBadRequest (some o)).body = some (.jsonObj o)
    ∧ (c.RespondBadRequest none).status = some 400
    ∧ (c.RespondBadRequest none).body = c.body
    ∧ (c.RespondBadRequestE err).status = some 400
    ∧ (c.RespondUnauthorized (some o)).status = some 401
    ∧ (c.RespondUnauthorized (some o)).body = some (.jsonObj o)
    ∧ (c.RespondUnauthorized none).status = some 401
    ∧ (c.RespondUnauthorized none).body = c.body
    ∧ (c.RespondUnauthorizedE err).status = some 401
    ∧ (c.RespondForbidden (some o)).status = some 403
    ∧ (c.RespondForbidden (some o)).body = some (.jsonObj o)
    ∧ (c.RespondForbidden none).status = some 403
    ∧ (c.RespondForbidden none).body = c.body
    ∧ (c.RespondForbiddenE err).status = some 403
    ∧ (c.RespondNotFound (some o)).status = some 404
    ∧ (c.RespondNotFound (some o)).body = some (.jsonObj o)
    ∧ (c.RespondNotFound none).status = some 404
    ∧ (c.RespondNotFound none).body = c.body
    ∧ (c.RespondNotFoundE err).status = some 404
    ∧ (c.RespondConflict (some o)).status = some 409
    ∧ (c.RespondConflict (some o)).body = some (.jsonObj o)
    ∧ (c.RespondConflict none).status = some 409
    ∧ (c.RespondConflict none).body = c.body
    ∧ (c.RespondConflictE err).status = some 409
    ∧ (c.RespondInternalServerError (some o)).status = some 500
    ∧ (c.RespondInternalServerError (some o)).body = some (.jsonObj o)
    ∧ (c.RespondInternalServerError none).status = some 500
    ∧ (c.RespondInternalServerError none).body = c.body
    ∧ (c.RespondInternalServerErrorE err).status = some 500 := by
  refine ⟨rfl, rfl, rfl, rfl, rfl, rfl, rfl, rfl, rfl, rfl, ?_⟩
  refine ⟨rfl, rfl, rfl, rfl, rfl, rfl, rfl, rfl, rfl, rfl, ?_⟩
  refine ⟨rfl, rfl, rfl, rfl, rfl, rfl, rfl, rfl, rfl, rfl, ?_⟩
  exact ⟨rfl, rfl, rfl, rfl, rfl, rfl, rfl, rfl, rfl, rfl⟩

/-- C9: an empty input always passes the enum, slice-enum and regex checks,
whatever the message, allowed values or regular expression. -/
theorem empty_input_passes_checks (v : Validator) (message : String)
    (values : List String) (regex : String → Bool) :
    v.RequireEnum "" message values = v
    ∧ v.RequireSliceEnum [] message values = v
    ∧ v.RequireMatchesRegex "" regex message = v := by
  refine ⟨?_, rfl, ?_⟩
  · simp [Validator.RequireEnum, goLen_empty]
  · simp [Validator.RequireMatchesRegex, goLen_empty]

/-- C10: on an io.EOF bind failure (empty request body), MayBindJSONV and
MayBindJSON return true without invoking the validator and without writing
any response, while MustBindJSONV and MustBindJSON write a 400 response with
message "request body is missing" and return false. -/
theorem bind_eof_divergence (c : Ctx) (obj : TargetKind) (validator : Option GoError) :
    c.MayBindJSONV .eof validator = (true, c)
    ∧ c.MayBindJSON .eof obj = (true, c)
    ∧ c.MustBindJSONV .eof obj validator =
        (false, c.RespondBadRequestE (.other "request body is missing"))
    ∧ (c.MustBindJSON .eof obj).1 = false
    ∧ (c.MustBindJSON .eof obj).2.status = some 400
    ∧ (c.MustBindJSON .eof obj).2.body = some (.errorObj "request body is missing") :=
  ⟨rfl, rfl, rfl, rfl, rfl, rfl⟩

/-- C8: the maximum-length bound is exclusive: a string whose byte length
equals the bound makes RequireMaxLength and RequireStringLengthBetween record
the failure message. -/
theorem maxLength_bound_exclusive (v : Validator) (s : String) (min max : Int)
    (message : String) (h : (goLen s : Int) = max) :
    v.RequireMaxLength s max message = v.append message
    ∧ v.RequireStringLengthBetween s min max message = v.append message := by
  constructor
  · simp [Validator.RequireMaxLength, Validator.Require, h]
  · simp [Validator.RequireStringLengthBetween, Validator.Require, h]

/-- Witness for C8 at the concrete input s = "ab", max = 2, min = 0. -/
theorem maxLength_bound_exclusive_witness :
    ((goLen "ab" : Int) = 2)
    ∧ (NewValidator.RequireMaxLength "ab" 2 "m" = NewValidator.append "m"
       ∧ NewValidator.RequireStringLengthBetween "ab" 0 2 "m" = NewValidator.append "m") :=
  ⟨by decide, maxLength_bound_exclusive NewValidator "ab" 0 2 "m" (by decide)⟩

/-- C5: MustBindJSON returns true exactly when the JSON bind succeeds and the
target's Validate (when it is Validatable) returns nil; whenever it returns
false a 400 Bad Request response with an error body has been written. -/
theorem mustBindJSON_spec (c : Ctx) (bind : BindOutcome) (obj : TargetKind) :
    ((c.MustBindJSON bind obj).1 = true ↔
        (bind = .success ∧ defaultValidator obj = none))
    ∧ ((c.MustBindJSON bind obj).1 = false →
        (c.MustBindJSON bind obj).2.status = some 400
        ∧ ∃ m, (c.MustBindJSON bind obj).2.body = some (.errorObj m)) := by
  rcases bind with _ | _ | e <;>
    rcases obj with _ | (_ | r) <;>
      simp [Ctx.MustBindJSON, Ctx.MustBindJSONV, defaultValidator,
        Ctx.RespondMissingRequestBody, Ctx.RespondBadRequestE, Ctx.respondE,
        Ctx.JSON, httpStatusBadRequest, GoError.error]

/-- Witness for C5 at a concrete context, bind outcome and target. -/
theorem mustBindJSON_spec_witness :
    (((Ctx.mk none none).MustBindJSON .success .plain).1 = true ↔
        (BindOutcome.success = .success ∧ defaultValidator .plain = none))
    ∧ (((Ctx.mk none none).MustBindJSON .success .plain).1 = false →
        ((Ctx.mk none none).MustBindJSON .success .plain).2.status = some 400
        ∧ ∃ m, ((Ctx.mk none none).MustBindJSON .success .plain).2.body =
            some (.errorObj m)) :=
  mustBindJSON_spec (Ctx.mk none none) .success .plain

/-- One conditional registration of `expandMethods` contains exactly the
`MethodNotAllowed` route for an unregistered verb. -/
theorem mem_expandIf (registry : PathRegistry) (p m : String) (t : Route) :
    t ∈ expandIf registry p m ↔
      registry.Get p m = false ∧ t = (m, p, MethodNotAllowed) := by
  unfold expandIf
  cases h : registry.Get p m <;> simp [h]

/-- Routes emitted for one path are exactly the `MethodNotAllowed` routes for
its unregistered verbs. -/
theorem mem_expandPath (registry : PathRegistry) (p : String) (t : Route) :
    t ∈ expandPath registry p ↔
      ∃ m ∈ httpMethods, registry.Get p m = false ∧ t = (m, p, MethodNotAllowed) := by
  simp only [expandPath, List.mem_append, mem_expandIf, httpMethods, List.mem_cons,
    List.not_mem_nil, or_false, exists_eq_or_imp, exists_eq_left]
  tauto

/-- Routes emitted by `expandMethods` come from some registered path. -/
theorem mem_expandMethods (registry : PathRegistry) (t : Route) :
    t ∈ expandMethods registry ↔ ∃ p ∈ registry.Paths, t ∈ expandPath registry p := by
  simp [expandMethods, List.mem_flatMap]

/-- C2: after any finite sequence of Add calls on a fresh registry, Get
returns true exactly when some Add call carried that path and listed that
method; in particular it returns false for paths never added. -/
theorem registry_get_iff_added (ops : List (String × List String))
    (path method : String) :
    (registryOfOps ops).Get path method = true ↔
      ∃ op ∈ ops, op.1 = path ∧ method ∈ op.2 := by
  rw [registryOfOps, get_foldAdd]
  have hnew : NewPathRegistry.Get path method = false := rfl
  rw [hnew]
  simp

/-- C7: Paths returns each distinct added path exactly once: the result has
no duplicates, contains exactly the added paths, and its length is the
number of distinct added paths. -/
theorem paths_distinct (ops : List (String × List String)) :
    (registryOfOps ops).Paths.Nodup
    ∧ (∀ p, p ∈ (registryOfOps ops).Paths ↔ p ∈ ops.map (fun op => op.1))
    ∧ (registryOfOps ops).Paths.length = (ops.map (fun op => op.1)).toFinset.card := by
  have hnodup : (registryOfOps ops).Paths.Nodup :=
    nodup_paths_foldAdd ops NewPathRegistry List.nodup_nil
  have hmem : ∀ p, p ∈ (registryOfOps ops).Paths ↔ p ∈ ops.map (fun op => op.1) := by
    intro p
    rw [registryOfOps, mem_paths_foldAdd]
    have : p ∈ NewPathRegistry.Paths ↔ False := by simp [NewPathRegistry, PathRegistry.Paths]
    rw [this]
    simp
  refine ⟨hnodup, hmem, ?_⟩
  rw [← List.toFinset_card_of_nodup hnodup]
  congr 1
  ext x
  simp [List.mem_toFinset, hmem x]

/-- C1: for every path in the registry and every verb among the seven HTTP
methods, expandMethods registers the MethodNotAllowed handler (whose effect
is to set response status 405) for that path exactly when the verb was not
registered for it, and registers no handler for that pair otherwise. -/
theorem expandMethods_emits_405 (registry : PathRegistry) (path verb : String)
    (hv : verb ∈ httpMethods) (hp : path ∈ registry.Paths) :
    (registry.Get path verb = false →
        (verb, path, MethodNotAllowed) ∈ expandMethods registry)
    ∧ (registry.Get path verb = true →
        ∀ h : HandlerFunc, (verb, path, h) ∉ expandMethods registry)
    ∧ (∀ c : Ctx, (MethodNotAllowed c).status = some 405) := by
  refine ⟨?_, ?_, fun c => rfl⟩
  · intro hget
    rw [mem_expandMethods]
    exact ⟨path, hp, (mem_expandPath _ _ _).mpr ⟨verb, hv, hget, rfl⟩⟩
  · intro hget h hmem
    rw [mem_expandMethods] at hmem
    obtain ⟨p, _, hpe⟩ := hmem
    rw [mem_expandPath] at hpe
    obtain ⟨m, _, hgf, heq⟩ := hpe
    obtain ⟨h1, h2, _⟩ : verb = m ∧ path = p ∧ h = MethodNotAllowed := by
      simpa [Prod.ext_iff] using heq
    rw [← h1, ← h2, hget] at hgf
    cases hgf

/-- Application of one fluent call either appends the call's message (when
its check fails) or leaves the validator unchanged. -/
theorem applyCall_eq (v : Validator) (c : Call) :
    applyCall v c = if c.fails = true then v.append c.msg else v := by
  cases c with
  | require condition message =>
    cases condition <;>
      simp [applyCall, Validator.Require, Call.fails, Call.msg]
  | requireEnum s message values =>
    by_cases h1 : goLen s = 0 <;> by_cases h2 : values.contains s = true <;>
      simp [applyCall, Validator.RequireEnum, Call.fails, Call.msg, h1, h2]
  | requireStringSliceMinLength s min message =>
    by_cases h : (s.length : Int) < min <;>
      simp [applyCall, Validator.RequireStringSliceMinLength,
        Validator.RequireSliceMinLength, Call.fails, Call.msg, h]
  | requireSliceMinLength s min message =>
    by_cases h : (s.length : Int) < min <;>
      simp [applyCall, Validator.RequireSliceMinLength, Call.fails, Call.msg, h]
  | requireStringSliceNotEmpty s message =>
    by_cases h : s.length = 0 <;>
      simp [applyCall, Validator.RequireStringSliceNotEmpty,
        Validator.RequireSliceNotEmpty, Call.fails, Call.msg, h]
  | requireSliceNotEmpty s message =>
    by_cases h : s.length = 0 <;>
      simp [applyCall, Validator.RequireSliceNotEmpty, Call.fails, Call.msg, h]
  | requireStringSliceEnum s message values =>
    simp only [applyCall, Validator.RequireStringSliceEnum, Validator.RequireSliceEnum,
      Call.fails, Call.msg]
    by_cases h1 : s.length = 0
    · rw [if_pos h1]
      simp [h1]
    · rw [if_neg h1]
      by_cases h2 : (s.all fun i => values.contains i) = true
      · rw [if_pos h2]
        have hcond : (!decide (s.length = 0) && !(s.all fun i => values.contains i))
            = false := by
          rw [h2]
          simp
        rw [hcond]
        simp
      · rw [if_neg h2]
        have h2f : (s.all fun i => values.contains i) = false := by
          simpa using h2
        have hcond : (!decide (s.length = 0) && !(s.all fun i => values.contains i))
            = true := by
          rw [h2f]
          simp [h1]
        rw [hcond]
        simp
  | requireSliceEnum s message values =>
    simp only [applyCall, Validator.RequireSliceEnum, Call.fails, Call.msg]
    by_cases h1 : s.length = 0
    · rw [if_pos h1]
      simp [h1]
    · rw [if_neg h1]
      by_cases h2 : (s.all fun i => values.contains i) = true
      · rw [if_pos h2]
        have hcond : (!decide (s.length = 0) && !(s.all fun i => values.contains i))
            = false := by
          rw [h2]
          simp
        rw [hcond]
        simp
      · rw [if_neg h2]
        have h2f : (s.all fun i => values.contains i) = false := by
          simpa using h2
        have hcond : (!decide (s.length = 0) && !(s.all fun i => values.contains i))
            = true := by
          rw [h2f]
          simp [h1]
        rw [hcond]
        simp
  | requireMatchesRegex s regex message =>
    by_cases h1 : 0 < goLen s <;> by_cases h2 : regex s = true <;>
      simp [applyCall, Validator.RequireMatchesRegex, Call.fails, Call.msg, h1, h2]
  | requireStringMinLength s min message =>
    by_cases h : (goLen s : Int) ≥ min <;>
      simp [applyCall, Validator.RequireStringMinLength, Validator.RequireMinLength,
        Validator.Require, Call.fails, Call.msg, h]
  | requireMinLength s min message =>
    by_cases h : (goLen s : Int) ≥ min <;>
      simp [applyCall, Validator.RequireMinLength, Validator.Require,
        Call.fails, Call.msg, h]
  | requireStringMaxLength s max message =>
    by_cases h : (goLen s : Int) < max <;>
      simp [applyCall, Validator.RequireStringMaxLength, Validator.RequireMaxLength,
        Validator.Require, Call.fails, Call.msg, h]
  | requireMaxLength s max message =>
    by_cases h : (goLen s : Int) < max <;>
      simp [applyCall, Validator.RequireMaxLength, Validator.Require,
        Call.fails, Call.msg, h]
  | requireStringNotEmpty s message =>
    by_cases h : 0 < goLen s <;>
      simp [applyCall, Validator.RequireStringNotEmpty, Validator.RequireNotEmpty,
        Validator.Require, Call.fails, Call.msg, h]
  | requireNotEmpty s message =>
    by_cases h : 0 < goLen s <;>
      simp [applyCall, Validator.RequireNotEmpty, Validator.Require,
        Call.fails, Call.msg, h]
  | requireStringLengthBetween s min max message =>
    by_cases h1 : (goLen s : Int) ≥ min <;> by_cases h2 : (goLen s : Int) < max <;>
      simp [applyCall, Validator.RequireStringLengthBetween, Validator.Require,
        Call.fails, Call.msg, h1, h2]

/-- The accumulator after a chain of calls is the fold of the builder step
over the messages of the failing calls, in order. -/
theorem runCalls_errors (calls : List Call) (v : Validator) :
    (runCalls v calls).errors =
      List.foldl appendStr v.errors ((calls.filter Call.fails).map Call.msg) := by
  induction calls generalizing v with
  | nil => rfl
  | cons c calls ih =>
    show (runCalls (applyCall v c) calls).errors = _
    rw [ih, applyCall_eq]
    by_cases hf : c.fails = true
    · simp [hf, List.filter_cons, Validator.append]
    · simp [hf, List.filter_cons]

/-- The builder step in terms of emptiness of the accumulator. -/
theorem appendStr_eq (acc m : String) :
    appendStr acc m = if acc = "" then m else acc ++ ", " ++ m := by
  unfold appendStr
  by_cases h : acc = ""
  · rw [if_pos h, h]
    simp [goLen_empty, String.empty_append]
  · rw [if_neg h, if_pos ((goLen_pos_iff acc).mpr h)]

/-- Byte length distributes over string append. -/
theorem goLen_append (a b : String) : goLen (a ++ b) = goLen a + goLen b := by
  cases a with
  | mk l1 =>
    cases b with
    | mk l2 =>
      show goLen (String.mk (l1 ++ l2)) = _
      simp [goLen, String.utf8ByteSize_mk, String.utf8Len_append]

/-- Appending to a non-empty string stays non-empty. -/
theorem append_ne_empty (a b : String) (h : a ≠ "") : a ++ b ≠ "" := by
  rw [← goLen_pos_iff] at h ⊢
  rw [goLen_append]
  omega

/-- Splitting the head of a comma join along a string append. -/
theorem joinComma_append_head (x y : String) (rest : List String) :
    joinComma ((x ++ y) :: rest) = x ++ joinComma (y :: rest) := by
  cases rest with
  | nil => rfl
  | cons r rs =>
    show (x ++ y) ++ ", " ++ joinComma (r :: rs) = x ++ (y ++ ", " ++ joinComma (r :: rs))
    simp [String.append_assoc]

/-- Folding the builder step from a non-empty accumulator produces the comma
join headed by that accumulator. -/
theorem foldl_appendStr_cons (rest : List String) (a : String) (h : a ≠ "") :
    List.foldl appendStr a rest = joinComma (a :: rest) := by
  induction rest generalizing a with
  | nil => rfl
  | cons m2 rs ih =>
    rw [List.foldl_cons, appendStr_eq, if_neg h]
    rw [ih (a ++ ", " ++ m2) (append_ne_empty _ _ (append_ne_empty _ _ h))]
    rw [String.append_assoc, joinComma_append_head a (", " ++ m2) rs,
      joinComma_append_head ", " m2 rs]
    show a ++ (", " ++ joinComma (m2 :: rs)) = a ++ ", " ++ joinComma (m2 :: rs)
    rw [String.append_assoc]

/-- A comma join headed by a non-empty message is non-empty. -/
theorem joinComma_ne_empty (m : String) (rest : List String) (h : m ≠ "") :
    joinComma (m :: rest) ≠ "" := by
  cases rest with
  | nil => exact h
  | cons r rs =>
    show m ++ ", " ++ joinComma (r :: rs) ≠ ""
    exact append_ne_empty _ _ (append_ne_empty _ _ h)

/-- A format string without a percent character is rendered verbatim. -/
theorem fmtExpand_no_percent (l : List Char) (h : '%' ∉ l) : fmtExpand l = l := by
  induction l with
  | nil => rfl
  | cons c rest ih =>
    have hc : ¬ c = '%' := by
      intro hh
      exact h (by rw [hh]; exact List.mem_cons_self _ _)
    have h2 : '%' ∉ rest := fun hh => h (List.mem_cons_of_mem _ hh)
    cases rest with
    | nil =>
      simp only [fmtExpand]
      rw [if_neg hc]
    | cons d rest2 =>
      simp only [fmtExpand]
      rw [if_neg hc, ih h2]

/-- Characters of a comma join come from the messages or the separator. -/
theorem mem_data_joinComma (ms : List String) (ch : Char)
    (h : ch ∈ (joinComma ms).data) :
    (∃ m ∈ ms, ch ∈ m.data) ∨ ch ∈ (", " : String).data := by
  induction ms with
  | nil => simp [joinComma] at h
  | cons m rest ih =>
    cases rest with
    | nil => exact Or.inl ⟨m, List.mem_cons_self _ _, h⟩
    | cons r rs =>
      rw [show joinComma (m :: r :: rs) = m ++ ", " ++ joinComma (r :: rs) from rfl,
        String.data_append, String.data_append] at h
      rw [List.append_assoc, List.mem_append] at h
      rcases h with h | h
      · exact Or.inl ⟨m, List.mem_cons_self _ _, h⟩
      · rw [List.mem_append] at h
        rcases h with h | h
        · exact Or.inr h
        · rcases ih h with ⟨m2, hm2, hch⟩ | h
          · exact Or.inl ⟨m2, List.mem_cons_of_mem _ hm2, hch⟩
          · exact Or.inr h

/-- Witness for C1: the registry holding only ("/a", GET); verb POST is
unregistered for "/a". -/
theorem expandMethods_emits_405_witness :
    ("POST" ∈ httpMethods)
    ∧ ("/a" ∈ (NewPathRegistry.Add "/a" ["GET"]).Paths)
    ∧ (((NewPathRegistry.Add "/a" ["GET"]).Get "/a" "POST" = false →
          ("POST", "/a", MethodNotAllowed) ∈
            expandMethods (NewPathRegistry.Add "/a" ["GET"]))
       ∧ ((NewPathRegistry.Add "/a" ["GET"]).Get "/a" "POST" = true →
          ∀ h : HandlerFunc, ("POST", "/a", h) ∉
            expandMethods (NewPathRegistry.Add "/a" ["GET"]))
       ∧ (∀ c : Ctx, (MethodNotAllowed c).status = some 405)) :=
  ⟨by decide, by decide,
    expandMethods_emits_405 (NewPathRegistry.Add "/a" ["GET"]) "/a" "POST"
      (by decide) (by decide)⟩

/-- C3 counterexample: the chain consisting of the single call
Require(false, "") has a failed check, yet Validate() returns nil, because
the empty failure message leaves the accumulator empty. -/
theorem validate_empty_message_counterexample :
    Call.fails (Call.require false "") = true
    ∧ (runCalls NewValidator [Call.require false ""]).Validate = none := by
  constructor
  · rfl
  · rfl

/-- C3 (amended): for every chain of Require* calls in which every failure
message is non-empty and contains no percent character, Validate() returns
nil when no check failed, and otherwise a single non-nil error whose message
is exactly the failed checks' messages, in invocation order, joined by ", ". -/
theorem validate_joins_failure_messages (calls : List Call)
    (h : ∀ c ∈ calls, c.fails = true → c.msg ≠ "" ∧ '%' ∉ c.msg.data) :
    (runCalls NewValidator calls).Validate =
      (if (calls.filter Call.fails).map Call.msg = [] then none
       else some (joinComma ((calls.filter Call.fails).map Call.msg))) := by
  have hmsgs : ∀ m ∈ (calls.filter Call.fails).map Call.msg,
      m ≠ "" ∧ '%' ∉ m.data := by
    intro m hm
    rw [List.mem_map] at hm
    obtain ⟨c, hc, rfl⟩ := hm
    rw [List.mem_filter] at hc
    exact h c hc.1 hc.2
  have herr : (runCalls NewValidator calls).errors =
      List.foldl appendStr "" ((calls.filter Call.fails).map Call.msg) :=
    runCalls_errors calls NewValidator
  cases hm : (calls.filter Call.fails).map Call.msg with
  | nil =>
    rw [hm] at herr
    rw [if_pos rfl]
    unfold Validator.Validate
    rw [herr]
    simp [goLen_empty]
  | cons m rest =>
    have hne : m ≠ "" := (hmsgs m (by rw [hm]; exact List.mem_cons_self _ _)).1
    rw [hm] at herr
    rw [List.foldl_cons, appendStr_eq, if_pos rfl, foldl_appendStr_cons rest m hne]
      at herr
    have hjoin_ne : joinComma (m :: rest) ≠ "" := joinComma_ne_empty m rest hne
    have hnp : '%' ∉ (joinComma (m :: rest)).data := by
      intro hmem
      rcases mem_data_joinComma (m :: rest) '%' hmem with ⟨m2, hm2, hch⟩ | hch
      · have := hmsgs m2 (by rw [hm]; exact hm2)
        exact this.2 hch
      · revert hch
        decide
    rw [if_neg (by simp)]
    unfold Validator.Validate
    rw [herr, if_pos ((goLen_pos_iff (joinComma (m :: rest))).mpr hjoin_ne)]
    unfold goErrorf
    rw [fmtExpand_no_percent _ hnp]

/-- Witness for C3 (amended) at the concrete chain Require(false, "a"),
Require(true, "x"), RequireNotEmpty("", "b"): Validate yields "a, b". -/
theorem validate_joins_failure_messages_witness :
    (∀ c ∈ [Call.require false "a", Call.require true "x",
        Call.requireNotEmpty "" "b"],
      c.fails = true → c.msg ≠ "" ∧ '%' ∉ c.msg.data)
    ∧ ((runCalls NewValidator [Call.require false "a", Call.require true "x",
          Call.requireNotEmpty "" "b"]).Validate =
        (if (([Call.require false "a", Call.require true "x",
              Call.requireNotEmpty "" "b"].filter Call.fails).map Call.msg) = []
         then none
         else some (joinComma (([Call.require false "a", Call.require true "x",
              Call.requireNotEmpty "" "b"].filter Call.fails).map Call.msg)))) :=
  ⟨by decide,
    validate_joins_failure_messages
      [Call.require false "a", Call.require true "x", Call.requireNotEmpty "" "b"]
      (by decide)⟩
